import Mathlib

/-!
Verification development for the eigendecomposition core of this repository
(header src/OpenFOAM/matrices/scalarMatrices/eigendecomposition/eigendecomposition.H)
and for the surface-interpolation interface
(src/finiteVolume/interpolation/surfaceInterpolation/surfaceInterpolation/surfaceInterpolate.H).

The algorithmic body eigendecomposition.C is declared by the header but is not
part of the shown sources, so the constructor pipeline, the iteration-cap
mechanism and the block-diagonal assembler are modelled from the specification
(sections 2, 4.1, 4.3, 4.6, 4.7 and 7 of the design document), each such
definition marked `Modelled from the spec:` in its doc comment.  Scalars are
embedded as exact rationals.
-/

namespace Foam

/-- Modelled from the spec: section 4.3 and section 7 name a fixed maximum sweep
count for the QL and QR iterations, classically 30, kept as an explicit named
constant (eigendecomposition.C is not among the shown sources). -/
def maxIter : ℕ := 30

/-- Outcome of an iteration loop for one target index: either a state in which
the deflation criterion holds, or a distinguishable non-convergence failure. -/
inductive qlOutcome (σ : Type) where
  | converged (s : σ)
  | nonConvergence
deriving DecidableEq

/-- Modelled from the spec: sections 4.3 and 4.6 (eigendecomposition.C is not
among the shown sources).  For one target index the solver runs at most a fixed
budget of sweeps; each sweep first tests the deflation criterion (negligible
off-diagonal entry) and stops there when it holds, otherwise it applies one
shift-and-rotate sweep to the working state.  Exhausting the budget without
deflating yields the distinguishable non-convergence outcome of section 7. -/
def qlIterate {σ : Type} (deflated : σ → Bool) (sweep : σ → σ) : ℕ → σ → qlOutcome σ
  | 0, _ => .nonConvergence
  | k + 1, s => if deflated s then .converged s else qlIterate deflated sweep k (sweep s)

/-- Modelled from the spec: section 4.7 (eigendecomposition.C is not among the
shown sources).  The assembler walks the index range with a skip: an index i
opens a 2x2 block exactly when e i is nonzero and i is not the skipped second
index of the block opened just before it.  This predicate renders that walk
functionally. -/
def pairStart (e : ℕ → ℚ) : ℕ → Bool
  | 0 => decide (e 0 ≠ 0)
  | i + 1 => decide (e (i + 1) ≠ 0) && !(pairStart e i)

/-- Modelled from the spec: section 4.7 (eigendecomposition.C is not among the
shown sources).  The block-diagonal assembler D: where e i is zero the entry
D i i is d i; where a matching plus-minus pair sits at positions i and i + 1 it
emits the 2x2 block [[d i, e i], [-(e i), d i]] and skips index i + 1; every
other entry is zero.  Rows are classified as block-opening, block-second, or
real, mirroring the skip walk via pairStart. -/
def assembleD (d e : ℕ → ℚ) (i j : ℕ) : ℚ :=
  if pairStart e i = true then
    (if j = i then d i else if j = i + 1 then e i else 0)
  else if 0 < i ∧ pairStart e (i - 1) = true then
    (if j = i - 1 then -(e (i - 1)) else if j = i then d (i - 1) else 0)
  else
    (if j = i then d i else 0)

/-- Failure taxonomy of the constructor, from the spec, section 7: degenerate
input is a precondition violation, and global non-convergence is the only other
failure that propagates to the caller. -/
inductive constructError where
  | degenerateInput
  | nonConvergence
deriving DecidableEq

/-- Result produced by one algorithmic path: eigenvalue real parts d, imaginary
parts e, and the eigenvector matrix V (header lines 103 to 110). -/
structure pathResult (n : ℕ) where
  d : Fin n → ℚ
  e : Fin n → ℚ
  V : Fin n → Fin n → ℚ
deriving DecidableEq

/-- Decomposition state owned by one instance (header lines 98 to 110): the
one-time symmetry flag and the fields d, e, V exposed by the accessors. -/
structure decompState (n : ℕ) where
  symmetric : Bool
  d : Fin n → ℚ
  e : Fin n → ℚ
  V : Fin n → Fin n → ℚ
deriving DecidableEq

/-- Modelled from the spec: section 4.1 (eigendecomposition.C is not among the
shown sources).  The symmetry classifier tests A i j against A j i for every
index pair i < j under a tolerance and decides the boolean once. -/
def symmetryTest (n : ℕ) (tol : ℚ) (A : Fin n → Fin n → ℚ) : Bool :=
  decide (∀ i j : Fin n, i < j → |A i j - A j i| ≤ tol)

/-- Modelled from the spec: section 3 — the input matrix is never mutated and is
copied internally where needed for staging; the numeric paths work on this
staging copy. -/
def stagingCopy (n : ℕ) (A : Fin n → Fin n → ℚ) : Fin n → Fin n → ℚ :=
  fun i j => A i j

/-- Packages a path result into the instance state together with the one-time
symmetry flag. -/
def mkState (n : ℕ) (symm : Bool) (r : pathResult n) : decompState n :=
  { symmetric := symm, d := r.d, e := r.e, V := r.V }

/-- Modelled from the spec: sections 2, 4.1 and 9 (eigendecomposition.C is not
among the shown sources).  The square-matrix core of the constructor: classify
symmetry once, then dispatch to exactly one of the two algorithmic paths, each
received as a strategy operating on the staging copy of A; the path outcome,
tagged with the flag, becomes the instance state. -/
def constructSquare (n : ℕ) (tol : ℚ) (A : Fin n → Fin n → ℚ)
    (symPath asymPath : (Fin n → Fin n → ℚ) → Except constructError (pathResult n)) :
    Except constructError (decompState n) :=
  if symmetryTest n tol A then
    (symPath (stagingCopy n A)).map (mkState n true)
  else
    (asymPath (stagingCopy n A)).map (mkState n false)

/-- Modelled from the spec: sections 6 and 7 (eigendecomposition.C is not among
the shown sources).  The constructor takes an m x n real matrix; n = 0 or a
non-square shape is a precondition violation rejected before any algorithmic
work (no symmetry test, no reduction, no iteration); otherwise the square core
runs. -/
def construct (m n : ℕ) (tol : ℚ) (A : Fin m → Fin n → ℚ)
    (symPath asymPath : (Fin n → Fin n → ℚ) → Except constructError (pathResult n)) :
    Except constructError (decompState n) :=
  if h : m = n ∧ 1 ≤ n then
    constructSquare n tol (fun i j => A (Fin.cast h.1.symm i) j) symPath asymPath
  else
    .error .degenerateInput

/-- The ambient store threaded through a construction: the matrix held by the
caller, and the decomposition slot the constructor fills. -/
structure decompStore (n : ℕ) where
  A : Fin n → Fin n → ℚ
  decomp : Option (decompState n)

/-- Modelled from the spec: sections 3 and 5 (eigendecomposition.C is not among
the shown sources).  Construction as an explicit state transformer on the
ambient store: the numeric paths receive only the staging copy of A, and the
constructor writes only the decomposition slot of the store. -/
def constructInStore (n : ℕ) (tol : ℚ) (st : decompStore n)
    (symPath asymPath : (Fin n → Fin n → ℚ) → Except constructError (pathResult n)) :
    decompStore n × Except constructError (decompState n) :=
  match constructSquare n tol st.A symPath asymPath with
  | .ok s => ({ st with decomp := some s }, .ok s)
  | .error err => (st, .error err)

/-- The class one of OpenFOAM (one.H): a stateless placeholder type standing
for the scalar 1, with a single value. -/
inductive one where
  | mk
deriving DecidableEq

namespace fvc

/-- Embedding of the overload at lines 189 to 193 of surfaceInterpolate.H:
inline one interpolate(const one&) { return one(); } — a pure function of its
one argument, taking no mesh, no flux field and no scheme name. -/
def interpolate (_ : one) : one := one.mk

end fvc

/-- The concrete sequences of the C4 witness: a real eigenvalue 2 at index 0,
a complex pair 7 plus-minus 5 i at indices 1 and 2, zeros beyond. -/
def dW : ℕ → ℚ := fun k => if k = 1 then 7 else if k = 2 then 7 else 2

/-- Imaginary parts for the C4 witness. -/
def eW : ℕ → ℚ := fun k => if k = 1 then 5 else if k = 2 then -5 else 0

/-- The concrete asymmetric matrix of the C5 witness. -/
def AW2 : Fin 2 → Fin 2 → ℚ := fun i j => if i.1 = 0 ∧ j.1 = 1 then 1 else 0

/-- A concrete path result shared by the constructor witnesses. -/
def rW2 : pathResult 2 := ⟨fun _ => 0, fun _ => 0, fun _ _ => 0⟩

/-- The symmetric-path strategy of the C5 witness (never reached). -/
def spW2 : (Fin 2 → Fin 2 → ℚ) → Except constructError (pathResult 2) :=
  fun _ => .error .nonConvergence

/-- The non-symmetric-path strategy of the C5 witness. -/
def apW2 : (Fin 2 → Fin 2 → ℚ) → Except constructError (pathResult 2) :=
  fun _ => .ok rW2

/-- A concrete empty path result for the C8 witness. -/
def rW0 : pathResult 0 := ⟨fun _ => 0, fun _ => 0, fun _ _ => 0⟩

/-- A concrete path result of size one for the C9 witness. -/
def rW1 : pathResult 1 := ⟨fun _ => 3, fun _ => 0, fun _ _ => 1⟩

/-- If the deflation criterion fails on every state reachable within the sweep
budget, the loop reports non-convergence. -/
lemma qlIterate_exhausted {σ : Type} (deflated : σ → Bool) (sweep : σ → σ) :
    ∀ (k : ℕ) (s : σ), (∀ m, m < k → deflated (sweep^[m] s) = false) →
      qlIterate deflated sweep k s = .nonConvergence := by
  intro k
  induction k with
  | zero => intro s _; rfl
  | succ k ih =>
    intro s h
    have h0 : deflated s = false := by
      simpa using h 0 (Nat.succ_pos k)
    have hrest : ∀ m, m < k → deflated (sweep^[m] (sweep s)) = false := by
      intro m hm
      have := h (m + 1) (Nat.succ_lt_succ hm)
      simpa [Function.iterate_succ_apply] using this
    simp [qlIterate, h0, ih (sweep s) hrest]

/-- The loop returns a converged state only when the deflation criterion holds
on that state. -/
lemma qlIterate_converged_sound {σ : Type} (deflated : σ → Bool) (sweep : σ → σ) :
    ∀ (k : ℕ) (s s' : σ), qlIterate deflated sweep k s = .converged s' →
      deflated s' = true := by
  intro k
  induction k with
  | zero => intro s s' h; exact absurd h (by simp [qlIterate])
  | succ k ih =>
    intro s s' h
    by_cases hd : deflated s = true
    · have : qlOutcome.converged s = qlOutcome.converged s' := by
        simpa [qlIterate, hd] using h
      cases this
      exact hd
    · have hd' : deflated s = false := by
        cases hdc : deflated s
        · rfl
        · exact absurd hdc hd
      have : qlIterate deflated sweep k (sweep s) = .converged s' := by
        simpa [qlIterate, hd'] using h
      exact ih (sweep s) s' this

/-- An index whose imaginary part vanishes never opens a block. -/
lemma pairStart_eq_false_of_zero (e : ℕ → ℚ) (i : ℕ) (h : e i = 0) :
    pairStart e i = false := by
  cases i with
  | zero => simp [pairStart, h]
  | succ k => simp [pairStart, h]

/-- The skipped second index of a block never opens a block itself. -/
lemma pairStart_succ_eq_false (e : ℕ → ℚ) (i : ℕ) (h : pairStart e i = true) :
    pairStart e (i + 1) = false := by
  simp [pairStart, h]

/-- An index that opens a block carries a nonzero imaginary part. -/
lemma pairStart_ne_zero (e : ℕ → ℚ) (i : ℕ) (h : pairStart e i = true) :
    e i ≠ 0 := by
  cases i with
  | zero => simpa [pairStart] using h
  | succ k =>
    have h' := h
    simp [pairStart] at h'
    exact h'.1

/-- Whenever the square core returns a state, its symmetry flag equals the
one-time classifier verdict on A. -/
lemma constructSquare_ok_flag (n : ℕ) (tol : ℚ) (A : Fin n → Fin n → ℚ)
    (sp ap : (Fin n → Fin n → ℚ) → Except constructError (pathResult n))
    (st : decompState n) (h : constructSquare n tol A sp ap = .ok st) :
    st.symmetric = symmetryTest n tol A := by
  cases ht : symmetryTest n tol A with
  | true =>
    rw [constructSquare, ht] at h
    simp only [if_true] at h
    cases hsp : sp (stagingCopy n A) with
    | ok r =>
      rw [hsp] at h
      simp [Except.map, mkState] at h
      rw [← h]
    | error err =>
      rw [hsp] at h
      simp [Except.map] at h
  | false =>
    rw [constructSquare, ht] at h
    simp only [Bool.false_eq_true, if_false] at h
    cases hap : ap (stagingCopy n A) with
    | ok r =>
      rw [hap] at h
      simp [Except.map, mkState] at h
      rw [← h]
    | error err =>
      rw [hap] at h
      simp [Except.map] at h

/-- C3: if the QL or QR sweep loop for a target index runs through its maximum
sweep budget maxIter without the deflation criterion ever holding, it returns
the distinguishable non-convergence outcome rather than a state; and a
converged outcome is only ever returned for a state on which the deflation
criterion holds, so unconverged entries are never presented as valid
eigenvalues. -/
theorem tql2_cap_surfaced {σ : Type} (deflated : σ → Bool) (sweep : σ → σ) (s : σ)
    (h : ∀ m, m < maxIter → deflated (sweep^[m] s) = false) :
    qlIterate deflated sweep maxIter s = .nonConvergence ∧
    ∀ (k : ℕ) (s' : σ), qlIterate deflated sweep k s = .converged s' →
      deflated s' = true :=
  ⟨qlIterate_exhausted deflated sweep maxIter s h,
   fun k s' hk => qlIterate_converged_sound deflated sweep k s s' hk⟩

/-- Witness for C3 at a concrete loop that never deflates. -/
theorem tql2_cap_surfaced_witness :
    qlIterate (fun _ : ℕ => false) (fun s => s + 1) maxIter 0 =
      qlOutcome.nonConvergence :=
  (tql2_cap_surfaced (fun _ : ℕ => false) (fun s => s + 1) 0 (fun _ _ => rfl)).1

/-- C4: the block-diagonal assembler fills the output matrix by the block rule:
at an index whose imaginary part is zero the diagonal entry is d i and the rest
of the row is zero; at an index opening a matching plus-minus pair the 2x2
block [[d i, e i], [-(e i), d i]] is emitted across rows i and i + 1 (index
i + 1 being skipped) and every other entry of those two rows is zero.  The
hypothesis is the pairing convention of the stored sequences at the preceding
index; the assembler itself is a pure function of (d, e). -/
theorem D_assembler_block_rule (d e : ℕ → ℚ) (i : ℕ)
    (hprev : 0 < i → pairStart e (i - 1) = true → e i = -(e (i - 1))) :
    (e i = 0 → assembleD d e i i = d i ∧ ∀ j, j ≠ i → assembleD d e i j = 0) ∧
    (pairStart e i = true →
      assembleD d e i i = d i ∧ assembleD d e i (i + 1) = e i ∧
      assembleD d e (i + 1) i = -(e i) ∧ assembleD d e (i + 1) (i + 1) = d i ∧
      ∀ j, j ≠ i → j ≠ i + 1 →
        assembleD d e i j = 0 ∧ assembleD d e (i + 1) j = 0) := by
  constructor
  · intro he
    have hps : pairStart e i = false := pairStart_eq_false_of_zero e i he
    have hsec : ¬(0 < i ∧ pairStart e (i - 1) = true) := by
      rintro ⟨hi, hpp⟩
      have hne : e (i - 1) ≠ 0 := pairStart_ne_zero e (i - 1) hpp
      have hrel := hprev hi hpp
      rw [he] at hrel
      exact hne (by linarith)
    refine ⟨?_, ?_⟩
    · simp [assembleD, hps, hsec]
    · intro j hj
      simp [assembleD, hps, hsec, hj]
  · intro hp
    have hps1 : pairStart e (i + 1) = false := pairStart_succ_eq_false e i hp
    have hne1 : i + 1 ≠ i := Nat.succ_ne_self i
    refine ⟨?_, ?_, ?_, ?_, ?_⟩
    · simp [assembleD, hp]
    · simp [assembleD, hp, hne1]
    · simp [assembleD, hps1, hp, Nat.add_sub_cancel]
    · simp [assembleD, hps1, hp, Nat.add_sub_cancel, hne1]
    · intro j hj hj1
      refine ⟨?_, ?_⟩
      · simp [assembleD, hp, hj, hj1]
      · simp [assembleD, hps1, hp, Nat.add_sub_cancel, hj, hj1]

/-- Witness for C4 at the pair opened at index 1 of the concrete sequences. -/
theorem D_assembler_block_rule_witness :
    assembleD dW eW 1 1 = 7 ∧ assembleD dW eW 1 2 = 5 ∧
    assembleD dW eW 2 1 = -5 ∧ assembleD dW eW 2 2 = 7 := by
  have h := (D_assembler_block_rule dW eW 1 (by decide)).2 (by decide)
  exact ⟨h.1.trans (by decide), h.2.1.trans (by decide),
    h.2.2.1.trans (by decide), h.2.2.2.1.trans (by decide)⟩

/-- C5: whenever construction yields an instance state, its symmetric flag
holds exactly when the element test A i j versus A j i under the tolerance
passes for every index pair i < j — the flag is the one-time classifier
verdict, fixed in the resulting immutable state — and a negative verdict
routes the construction to the non-symmetric path. -/
theorem symmetric_flag_set_once (n : ℕ) (tol : ℚ) (A : Fin n → Fin n → ℚ)
    (sp ap : (Fin n → Fin n → ℚ) → Except constructError (pathResult n))
    (st : decompState n) (h : constructSquare n tol A sp ap = .ok st) :
    (st.symmetric = true ↔ ∀ i j : Fin n, i < j → |A i j - A j i| ≤ tol) ∧
    (symmetryTest n tol A = false →
      constructSquare n tol A sp ap = (ap (stagingCopy n A)).map (mkState n false)) := by
  refine ⟨?_, ?_⟩
  · rw [constructSquare_ok_flag n tol A sp ap st h]
    simp [symmetryTest]
  · intro hf
    simp [constructSquare, hf]

/-- Witness for C5 on the concrete asymmetric matrix. -/
theorem symmetric_flag_set_once_witness :
    ((mkState 2 false rW2).symmetric = true ↔
      ∀ i j : Fin 2, i < j → |AW2 i j - AW2 j i| ≤ 0) ∧
    (symmetryTest 2 0 AW2 = false →
      constructSquare 2 0 AW2 spW2 apW2 =
        (apW2 (stagingCopy 2 AW2)).map (mkState 2 false)) :=
  symmetric_flag_set_once 2 0 AW2 spW2 apW2 (mkState 2 false rW2)
    (by
      have ht : symmetryTest 2 0 AW2 = false := by
        rw [symmetryTest, decide_eq_false_iff_not]
        intro hall
        have h01 := hall 0 1 (by decide)
        simp [AW2] at h01
        norm_num at h01
      simp [constructSquare, ht, apW2, Except.map])

/-- C6: construction never mutates the input matrix: for every ambient store,
every tolerance and every pair of path strategies, the matrix held by the
caller after running the constructor is element-wise the matrix held before;
the numeric paths only ever receive the staging copy. -/
theorem input_matrix_unchanged (n : ℕ) (tol : ℚ) (st : decompStore n)
    (sp ap : (Fin n → Fin n → ℚ) → Except constructError (pathResult n)) :
    ((constructInStore n tol st sp ap).1).A = st.A := by
  rw [constructInStore]
  cases constructSquare n tol st.A sp ap <;> rfl

/-- C8: a degenerate shape — zero size or a non-square m x n input — is
rejected as a precondition violation with the degenerate-input error, and the
outcome is the same whatever tolerance and whatever path strategies are
supplied: no symmetry test, reduction or iteration ever runs on such input. -/
theorem degenerate_input_rejected (m n : ℕ) (tol tol' : ℚ)
    (A : Fin m → Fin n → ℚ)
    (sp ap sp' ap' : (Fin n → Fin n → ℚ) → Except constructError (pathResult n))
    (h : ¬(m = n ∧ 1 ≤ n)) :
    construct m n tol A sp ap = .error .degenerateInput ∧
    construct m n tol A sp ap = construct m n tol' A sp' ap' := by
  constructor <;> simp [construct, h]

/-- Witness for C8 at the empty 0 x 0 matrix. -/
theorem degenerate_input_rejected_witness :
    construct 0 0 0 (fun _ _ => (0 : ℚ))
        (fun _ => .error .nonConvergence) (fun _ => .error .nonConvergence) =
      Except.error constructError.degenerateInput :=
  (degenerate_input_rejected 0 0 0 1 (fun _ _ => (0 : ℚ))
    (fun _ => .error .nonConvergence) (fun _ => .error .nonConvergence)
    (fun _ => .ok rW0) (fun _ => .ok rW0) (by decide)).1

/-- C9: the construction is deterministic in its input: two runs of the
constructor on the same matrix, tolerance and strategies that both succeed
return equal states; in particular the eigenvalue sequences d and e of the two
runs match. -/
theorem construct_deterministic (n : ℕ) (tol : ℚ) (A : Fin n → Fin n → ℚ)
    (sp ap : (Fin n → Fin n → ℚ) → Except constructError (pathResult n))
    (s1 s2 : decompState n)
    (h1 : constructSquare n tol A sp ap = .ok s1)
    (h2 : constructSquare n tol A sp ap = .ok s2) :
    s1 = s2 ∧ s1.d = s2.d ∧ s1.e = s2.e := by
  have h := h1.symm.trans h2
  injection h with heq
  subst heq
  exact ⟨rfl, rfl, rfl⟩

/-- Witness for C9 on the concrete 1 x 1 zero matrix. -/
theorem construct_deterministic_witness :
    mkState 1 true rW1 = mkState 1 true rW1 ∧
    (mkState 1 true rW1).d = (mkState 1 true rW1).d ∧
    (mkState 1 true rW1).e = (mkState 1 true rW1).e :=
  construct_deterministic 1 0 (fun _ _ => 0)
    (fun _ => .ok rW1) (fun _ => .error .nonConvergence)
    (mkState 1 true rW1) (mkState 1 true rW1)
    (by
      have ht : symmetryTest 1 0 (fun _ _ => (0 : ℚ)) = true := by
        rw [symmetryTest, decide_eq_true_eq]
        intro i j _
        norm_num
      simp [constructSquare, ht, Except.map])
    (by
      have ht : symmetryTest 1 0 (fun _ _ => (0 : ℚ)) = true := by
        rw [symmetryTest, decide_eq_true_eq]
        intro i j _
        norm_num
      simp [constructSquare, ht, Except.map])

/-- C10: in the surface-interpolation interface, interpolating a value of type
one is the identity: every argument is mapped to one(), with no mesh, flux or
scheme-name input consumed at all. -/
theorem interpolate_one_identity :
    ∀ x : one, fvc.interpolate x = one.mk ∧ fvc.interpolate x = x := by
  intro x
  cases x
  exact ⟨rfl, rfl⟩

end Foam
